import Mathlib

/-!
Verification development for the MazKhatWeb ledger application.

The definitions below are a shallow embedding of the ledger/storage layer:
  * `src/src/screens/AddTransactionScreen.js` (`handleConfirm` balance recomputation),
  * `src/src/utils/storage.js` (`deleteTransaction`, `deleteLedger`,
    `fetchFromFirebase`, `syncAllToFirebase`, `getAllLedgers`, key helpers),
  * the backup utilities (`exportDataToBackup`, `importDataFromBackup`,
    `validateBackupFile`).

JavaScript numbers are modelled as `Int` (the claims under study are about
signs and sums, not float rounding), dates as `Nat` timestamps (the code
compares `new Date(a.date) - new Date(b.date)`), and the JSON documents
handled by the backup utilities as an untyped `JSValue` tree with JS
truthiness and `typeof` semantics.  Presentation-only transaction fields
(`note`, `displayDate`, `billPhoto`) are inert payload for every function
modelled here and are omitted from the record.
-/

namespace MazKhatWeb

/-- Transaction type tag: the source stores the string `'credit'` or `'debit'`. -/
inductive TxnType where
  | credit
  | debit
deriving DecidableEq, Repr

/-- A ledger transaction (`{ id, type, amount, date, balanceAfter }`). -/
structure Txn where
  id : String
  type : TxnType
  amount : Int
  date : Nat
  balanceAfter : Int
deriving DecidableEq, Repr

/-- A customer ledger (`{ id, name, phone, address, balance, transactions }`). -/
structure Ledger where
  id : String
  name : String
  phone : String
  address : String
  balance : Int
  transactions : List Txn
deriving DecidableEq, Repr

/-- Signed amount of one transaction under the app-wide convention
(credit positive, debit negative), as documented in
`calculateBalance` of the calculations utilities. -/
def signedAmt (t : Txn) : Int :=
  match t.type with
  | TxnType.credit => t.amount
  | TxnType.debit => -t.amount

/-- Signed sum of a transaction list (credit positive, debit negative). -/
def signedSum (ts : List Txn) : Int :=
  (ts.map signedAmt).sum

/-- One step of the running balance in `handleConfirm`:
`runningBalance += amount` for credit, `-= amount` for debit. -/
def stepBalance (acc : Int) (t : Txn) : Int :=
  match t.type with
  | TxnType.credit => acc + t.amount
  | TxnType.debit => acc - t.amount

/-- Insert a transaction into an already sorted list, after any
transaction with an equal or smaller date (stable insertion). -/
def insertByDate (t : Txn) : List Txn → List Txn
  | [] => [t]
  | u :: us => if t.date < u.date then t :: u :: us else u :: insertByDate t us

/-- Stable ascending sort by `date`, modelling
`updatedTransactions.sort((a, b) => new Date(a.date) - new Date(b.date))`. -/
def sortByDate (ts : List Txn) : List Txn :=
  ts.foldl (fun acc t => insertByDate t acc) []

/-- The `updatedTransactions.map` pass of `handleConfirm`: walk the sorted
list, update the running balance, and assign `balanceAfter` at each step. -/
def assignBalances (running : Int) : List Txn → List Txn
  | [] => []
  | t :: ts =>
    let nb := stepBalance running t
    { t with balanceAfter := nb } :: assignBalances nb ts

/-- The `updatedTransactions` list of `handleConfirm`: replace the edited
transaction in place, or append the new one. -/
def updatedTxns (ledger : Ledger) (editId : Option String) (txn : Txn) : List Txn :=
  match editId with
  | some eid => ledger.transactions.map (fun t => if t.id = eid then txn else t)
  | none => ledger.transactions ++ [txn]

/-- The balance-recomputation core of `handleConfirm` in
`AddTransactionScreen.js` (lines 98-134): replace the edited transaction or
append the new one, sort ascending by date, recompute every `balanceAfter`
and set `balance` to the final running total. -/
def handleSaveRecompute (ledger : Ledger) (editId : Option String) (txn : Txn) : Ledger :=
  let sorted := sortByDate (updatedTxns ledger editId txn)
  { ledger with
      balance := sorted.foldl stepBalance 0
      transactions := assignBalances 0 sorted }

/-- The full `handleConfirm` save path, including the guard that rejects a
non-positive evaluated amount (`if (numAmount <= 0) return`). -/
def handleConfirm (ledger : Ledger) (editId : Option String) (txn : Txn) : Ledger :=
  if txn.amount ≤ 0 then ledger else handleSaveRecompute ledger editId txn

/-- The per-ledger core of `deleteTransaction` in `storage.js` (lines
136-150): drop the matching transaction and recompute `balance` with
`newBalance -= amount` for credit and `newBalance += amount` otherwise.
The `balanceAfter` fields of the remaining transactions are not touched. -/
def deleteTransactionLedger (ledger : Ledger) (transactionId : String) : Ledger :=
  let updatedTransactions := ledger.transactions.filter (fun t => t.id ≠ transactionId)
  let newBalance := updatedTransactions.foldl
    (fun acc t => match t.type with
      | TxnType.credit => acc - t.amount
      | TxnType.debit => acc + t.amount) 0
  { ledger with balance := newBalance, transactions := updatedTransactions }

/-- An operation of the transaction add / edit / delete interface. -/
inductive LedgerOp where
  | add (t : Txn)
  | edit (tid : String) (t : Txn)
  | delete (tid : String)
deriving DecidableEq, Repr

/-- Apply one user operation: add and edit go through the `handleConfirm`
save path, delete through the `deleteTransaction` core. -/
def applyOp (l : Ledger) : LedgerOp → Ledger
  | LedgerOp.add t => handleConfirm l none t
  | LedgerOp.edit tid t => handleConfirm l (some tid) t
  | LedgerOp.delete tid => deleteTransactionLedger l tid

/-- Apply a sequence of operations in order. -/
def applyOps (l : Ledger) (ops : List LedgerOp) : Ledger :=
  ops.foldl applyOp l

/-- Cumulative signed sums of a transaction list: entry `i` is the signed
sum of the amounts through index `i`. -/
def cumulative (ts : List Txn) : List Int :=
  (List.range ts.length).map (fun i => signedSum (ts.take (i + 1)))

/-- Adjacent-pairs check that a list of dates is ascending. -/
def chainLe : List Nat → Bool
  | [] => true
  | [_] => true
  | a :: b :: rest => decide (a ≤ b) && chainLe (b :: rest)

/-- A transaction list is sorted ascending by `date`. -/
def sortedByDate (ts : List Txn) : Bool :=
  chainLe (ts.map Txn.date)

theorem stepBalance_eq (acc : Int) (t : Txn) : stepBalance acc t = acc + signedAmt t := by
  cases h : t.type
  all_goals simp only [stepBalance, signedAmt, h]
  all_goals omega

theorem foldl_stepBalance (ts : List Txn) (r : Int) :
    ts.foldl stepBalance r = r + signedSum ts := by
  induction ts generalizing r with
  | nil => simp [signedSum]
  | cons t ts ih =>
    simp only [List.foldl_cons, ih, stepBalance_eq, signedSum, List.map_cons, List.sum_cons]
    omega

theorem insertByDate_perm (t : Txn) (l : List Txn) : List.Perm (insertByDate t l) (t :: l) := by
  induction l with
  | nil => simp [insertByDate]
  | cons u us ih =>
    simp only [insertByDate]
    split
    · exact List.Perm.refl _
    · exact (ih.cons u).trans (List.Perm.swap t u us)

theorem sortByDate_perm (ts : List Txn) : List.Perm (sortByDate ts) ts := by
  have gen : ∀ (ts acc : List Txn),
      List.Perm (ts.foldl (fun acc t => insertByDate t acc) acc) (acc ++ ts) := by
    intro ts
    induction ts with
    | nil => intro acc; simp
    | cons t ts ih =>
      intro acc
      have h1 : List.Perm (ts.foldl (fun acc t => insertByDate t acc) (insertByDate t acc))
          ((insertByDate t acc) ++ ts) := ih _
      have h2 : List.Perm ((insertByDate t acc) ++ ts) ((t :: acc) ++ ts) :=
        (insertByDate_perm t acc).append_right ts
      have h3 : List.Perm ((t :: acc) ++ ts) (acc ++ t :: ts) := by
        simpa using List.perm_middle.symm
      exact (h1.trans h2).trans h3
  simpa using gen ts []

theorem signedSum_perm {l₁ l₂ : List Txn} (h : List.Perm l₁ l₂) :
    signedSum l₁ = signedSum l₂ :=
  (h.map signedAmt).sum_eq

theorem signedSum_sortByDate (ts : List Txn) : signedSum (sortByDate ts) = signedSum ts :=
  signedSum_perm (sortByDate_perm ts)

theorem assignBalances_length (r : Int) (ts : List Txn) :
    (assignBalances r ts).length = ts.length := by
  induction ts generalizing r with
  | nil => rfl
  | cons t ts ih => simp [assignBalances, ih]

theorem assignBalances_map_signedAmt (r : Int) (ts : List Txn) :
    (assignBalances r ts).map signedAmt = ts.map signedAmt := by
  induction ts generalizing r with
  | nil => rfl
  | cons t ts ih => simp [assignBalances, ih, signedAmt]

theorem signedSum_assignBalances (r : Int) (ts : List Txn) :
    signedSum (assignBalances r ts) = signedSum ts := by
  simp [signedSum, assignBalances_map_signedAmt]

theorem assignBalances_map_date (r : Int) (ts : List Txn) :
    (assignBalances r ts).map Txn.date = ts.map Txn.date := by
  induction ts generalizing r with
  | nil => rfl
  | cons t ts ih => simp [assignBalances, ih]

theorem assignBalances_take (r : Int) (ts : List Txn) (n : Nat) :
    (assignBalances r ts).take n = assignBalances r (ts.take n) := by
  induction ts generalizing r n with
  | nil => simp [assignBalances]
  | cons t ts ih =>
    cases n with
    | zero => simp [assignBalances]
    | succ n => simp [assignBalances, ih]

theorem assignBalances_get (r : Int) (ts : List Txn) (i : Nat) (h : i < ts.length)
    (h' : i < (assignBalances r ts).length) :
    ((assignBalances r ts).get ⟨i, h'⟩).balanceAfter = (ts.take (i + 1)).foldl stepBalance r := by
  induction ts generalizing r i with
  | nil => exact absurd h (by simp)
  | cons t ts ih =>
    cases i with
    | zero => simp [assignBalances]
    | succ i =>
      have hlen : i < ts.length := by simpa using h
      simpa [assignBalances] using ih (stepBalance r t) i hlen (by
        simpa [assignBalances_length] using hlen)

/-- Insertion into a sorted list of dates, mirroring `insertByDate`. -/
def insertNat (x : Nat) : List Nat → List Nat
  | [] => [x]
  | y :: ys => if x < y then x :: y :: ys else y :: insertNat x ys

theorem map_date_insertByDate (t : Txn) (l : List Txn) :
    (insertByDate t l).map Txn.date = insertNat t.date (l.map Txn.date) := by
  induction l with
  | nil => rfl
  | cons u us ih =>
    by_cases h : t.date < u.date <;> simp [insertByDate, insertNat, h, ih]

theorem chainLe_tail {a : Nat} {l : List Nat} (h : chainLe (a :: l) = true) :
    chainLe l = true := by
  cases l with
  | nil => rfl
  | cons b bs =>
    have h' : (decide (a ≤ b) && chainLe (b :: bs)) = true := h
    exact ((Bool.and_eq_true _ _) ▸ h').2

theorem chainLe_head {a b : Nat} {l : List Nat} (h : chainLe (a :: l) = true)
    (hb : l.head? = some b) : a ≤ b := by
  cases l with
  | nil => simp at hb
  | cons c cs =>
    have hcb : c = b := by simpa using hb
    have h' : (decide (a ≤ c) && chainLe (c :: cs)) = true := h
    have hac : a ≤ c := of_decide_eq_true ((Bool.and_eq_true _ _) ▸ h').1
    omega

theorem chainLe_cons_of (a : Nat) (l : List Nat) (h : chainLe l = true)
    (hh : ∀ b, l.head? = some b → a ≤ b) : chainLe (a :: l) = true := by
  cases l with
  | nil => rfl
  | cons b bs =>
    show (decide (a ≤ b) && chainLe (b :: bs)) = true
    simp [hh b rfl, h]

theorem insertNat_head_cases (x : Nat) (l : List Nat) (b : Nat)
    (h : (insertNat x l).head? = some b) : b = x ∨ l.head? = some b := by
  cases l with
  | nil =>
    simp only [insertNat, List.head?_cons, Option.some.injEq] at h
    exact Or.inl h.symm
  | cons y ys =>
    by_cases hxy : x < y
    · simp only [insertNat, if_pos hxy, List.head?_cons, Option.some.injEq] at h
      exact Or.inl h.symm
    · simp only [insertNat, if_neg hxy, List.head?_cons, Option.some.injEq] at h
      exact Or.inr (by simp [h])

theorem chainLe_insertNat (x : Nat) (l : List Nat) (h : chainLe l = true) :
    chainLe (insertNat x l) = true := by
  induction l with
  | nil => rfl
  | cons y ys ih =>
    by_cases hxy : x < y
    · simp only [insertNat, if_pos hxy]
      refine chainLe_cons_of x (y :: ys) h ?_
      intro b hb
      have hyb : y = b := by simpa using hb
      omega
    · simp only [insertNat, if_neg hxy]
      refine chainLe_cons_of y (insertNat x ys) (ih (chainLe_tail h)) ?_
      intro b hb
      rcases insertNat_head_cases x ys b hb with hbx | hhead
      · omega
      · exact chainLe_head h hhead

theorem sortByDate_sorted (ts : List Txn) : sortedByDate (sortByDate ts) = true := by
  have gen : ∀ (ts acc : List Txn), chainLe (acc.map Txn.date) = true →
      chainLe ((ts.foldl (fun acc t => insertByDate t acc) acc).map Txn.date) = true := by
    intro ts
    induction ts with
    | nil => intro acc h; exact h
    | cons t ts ih =>
      intro acc h
      refine ih (insertByDate t acc) ?_
      rw [map_date_insertByDate]
      exact chainLe_insertNat t.date (acc.map Txn.date) h
  exact gen ts [] rfl

/-! ### The per-user ledger collection

A JavaScript object keyed by ledger id (`allLedgers[ledgerId]`) is modelled
as an association list with first-match lookup. -/

/-- Lookup `m[k]`; `none` models the JS value `undefined`. -/
def lookupKey {α : Type} (m : List (String × α)) (k : String) : Option α :=
  match m.find? (fun p => p.1 == k) with
  | some p => some p.2
  | none => none

/-- Assignment `m[k] = v`: replace the existing binding or append a new one. -/
def setKey {α : Type} (m : List (String × α)) (k : String) (v : α) : List (String × α) :=
  match m with
  | [] => [(k, v)]
  | p :: rest => if p.1 == k then (k, v) :: rest else p :: setKey rest k v

/-- Key removal, `delete m[k]`. -/
def eraseKey {α : Type} (m : List (String × α)) (k : String) : List (String × α) :=
  m.filter (fun p => p.1 != k)

/-- The per-user collection of ledgers held under the `ledgers_*` key. -/
def AllLedgers : Type := List (String × Ledger)

/-- Remote sync behaviour triggered by a local mutation. -/
inductive SyncAction where
  | noSync
  | singleLedgerSync (lid : String)
  | fullResync
deriving DecidableEq, Repr

/-- The `deleteTransaction(ledgerId, transactionId)` function of
`storage.js` (lines 128-168): load the collection, return `false` when the
ledger is absent, otherwise drop the transaction, recompute the balance
with the inverted sign convention of this path, write the whole collection
back, and fire `syncAllToFirebase()` (a full-collection resync) when a
user is authenticated and auto-backup is enabled. -/
def deleteTransaction (user : Option String) (autoBackup : Bool) (m : AllLedgers)
    (ledgerId transactionId : String) : Bool × AllLedgers × SyncAction :=
  match lookupKey m ledgerId with
  | none => (false, m, SyncAction.noSync)
  | some ledger =>
    let updatedLedger := deleteTransactionLedger ledger transactionId
    (true, setKey m ledgerId updatedLedger,
      if user.isSome && autoBackup then SyncAction.fullResync else SyncAction.noSync)

/-! ### The remote store and synchronisation

The remote document store keeps, per user, a `ledgers` collection of
documents (name/balance/phone/address) plus, for each ledger id, a
`transactions` subcollection.  Firestore does not cascade-delete
subcollections, and a collection query only returns existing documents, so
the two parts are modelled separately. -/

/-- Data of a remote document `users/{uid}/ledgers/{ledgerId}`, as written
by `syncLedgerToFirebase`. -/
structure LedgerDoc where
  name : String
  balance : Int
  phone : String
  address : String
deriving DecidableEq, Repr

/-- Data of a remote document
`users/{uid}/ledgers/{ledgerId}/transactions/{transactionId}`. -/
structure TxnDoc where
  type : TxnType
  amount : Int
  date : Nat
  balanceAfter : Int
deriving DecidableEq, Repr

/-- Remote state for one user: the `ledgers` documents and the
`transactions` subcollections (which survive deletion of their parent). -/
structure RemoteState where
  ledgerDocs : List (String × LedgerDoc)
  txnSub : List (String × List (String × TxnDoc))
deriving DecidableEq, Repr

/-- The `deleteLedger(ledgerId)` function of `storage.js` (lines 175-199):
drop the key locally and rewrite the collection; when a user is
authenticated and auto-backup is enabled, also delete the remote ledger
document (but not its `transactions` subcollection). -/
def deleteLedger (user : Option String) (autoBackup : Bool) (local_ : AllLedgers)
    (remote : RemoteState) (ledgerId : String) : Bool × AllLedgers × RemoteState :=
  let updatedLocal := eraseKey local_ ledgerId
  let updatedRemote :=
    if user.isSome && autoBackup then
      { remote with ledgerDocs := eraseKey remote.ledgerDocs ledgerId }
    else remote
  (true, updatedLocal, updatedRemote)

/-- Reconstruction of one ledger inside `fetchFromFirebase`: document data
plus the `transactions` subcollection, sorted ascending by date. -/
def fetchLedgerEntry (remote : RemoteState) (p : String × LedgerDoc) : String × Ledger :=
  let docs : List (String × TxnDoc) :=
    match lookupKey remote.txnSub p.1 with
    | some docs => docs
    | none => []
  let txns := docs.map (fun q =>
    { id := q.1, type := q.2.type, amount := q.2.amount,
      date := q.2.date, balanceAfter := q.2.balanceAfter : Txn })
  (p.1, { id := p.1, name := p.2.name, phone := p.2.phone,
          address := p.2.address, balance := p.2.balance,
          transactions := sortByDate txns : Ledger })

/-- The `fetchFromFirebase()` function of `storage.js` (lines 241-284):
with no authenticated user it returns without touching local data;
otherwise it rebuilds every ledger from the remote documents and
overwrites the local collection wholesale. -/
def fetchFromFirebase (user : Option String) (remote : RemoteState)
    (local_ : AllLedgers) : AllLedgers :=
  match user with
  | none => local_
  | some _ => remote.ledgerDocs.map (fetchLedgerEntry remote)

/-! ### syncAllToFirebase -/

/-- A daily expense (`{ id, title, amount, category, date }`). -/
structure Expense where
  id : String
  title : String
  amount : Int
  category : String
  date : Nat
deriving DecidableEq, Repr

/-- The backup settings blob (`{ autoBackup, lastSync, syncStatus }`). -/
structure BackupSettings where
  autoBackup : Bool
  lastSync : Option String
  syncStatus : String
deriving DecidableEq, Repr

/-- Descriptor of one remote `setDoc` write issued during a sync. -/
inductive WriteDoc where
  | ledgerDoc (lid : String)
  | txnDoc (lid tid : String)
  | expenseDoc (eid : String)
  | categoriesDoc
deriving DecidableEq, Repr

/-- Issue a list of sequential awaited writes against a failure oracle:
returns the writes issued before the first failing one, and whether all of
them succeeded.  A failing write is modelled as a thrown exception, so
nothing after it is issued. -/
def issueSeq (fails : WriteDoc → Bool) : List WriteDoc → List WriteDoc × Bool
  | [] => ([], true)
  | w :: ws =>
    if fails w then ([], false)
    else
      let rest := issueSeq fails ws
      (w :: rest.1, rest.2)

/-- The `syncLedgerToFirebase(ledger)` helper of `storage.js` (lines
205-235): with no user it does nothing; otherwise it writes the ledger
document and then one document per transaction, sequentially.  Its own
try/catch swallows any failure, so it always returns normally with
whatever writes were issued before the failure. -/
def syncLedgerToFirebase (user : Option String) (fails : WriteDoc → Bool)
    (ledger : Ledger) : List WriteDoc :=
  match user with
  | none => []
  | some _ =>
    if fails (WriteDoc.ledgerDoc ledger.id) then []
    else
      WriteDoc.ledgerDoc ledger.id ::
        (issueSeq fails (ledger.transactions.map
          (fun t => WriteDoc.txnDoc ledger.id t.id))).1

/-- All writes issued by the ledger loop of `syncAllToFirebase`. -/
def ledgerLoopWrites (user : Option String) (fails : WriteDoc → Bool)
    (ledgers : AllLedgers) : List WriteDoc :=
  ledgers.foldl (fun acc p => acc ++ syncLedgerToFirebase user fails p.2) []

/-- The `syncAllToFirebase()` function of `storage.js` (lines 290-329):
returns `false` with no writes when unauthenticated; otherwise syncs every
ledger (failures swallowed per ledger), then every expense and the
categories document (whose failures propagate to the surrounding catch and
give a `false` return), and finally stamps `lastSync` with the current
time.  Result: (return value, writes issued, settings afterwards). -/
def syncAllToFirebase (user : Option String) (fails : WriteDoc → Bool)
    (ledgers : AllLedgers) (expenses : List Expense) (settings : BackupSettings)
    (now : String) : Bool × List WriteDoc × BackupSettings :=
  match user with
  | none => (false, [], settings)
  | some _ =>
    let lw := ledgerLoopWrites user fails ledgers
    let expRes := issueSeq fails (expenses.map (fun e => WriteDoc.expenseDoc e.id))
    if expRes.2 then
      if fails WriteDoc.categoriesDoc then
        (false, lw ++ expRes.1, settings)
      else
        (true, lw ++ expRes.1 ++ [WriteDoc.categoriesDoc],
          { settings with lastSync := some now })
    else
      (false, lw ++ expRes.1, settings)

/-! ### JavaScript values

The backup utilities (`validateBackupFile`, `importDataFromBackup`,
`exportDataToBackup`) operate on untyped parsed-JSON data, so they are
embedded over a JS value tree with JS truthiness, `typeof`, property
access (throwing on `null`/`undefined`) and `for...in` enumeration. -/

/-- Untyped JavaScript value. -/
inductive JSValue where
  | null
  | undef
  | bool (b : Bool)
  | num (n : Int)
  | str (s : String)
  | arr (elems : List JSValue)
  | obj (fields : List (String × JSValue))

/-- JS truthiness. -/
def JSValue.truthy : JSValue → Bool
  | JSValue.null => false
  | JSValue.undef => false
  | JSValue.bool b => b
  | JSValue.num n => n != 0
  | JSValue.str s => s != ""
  | JSValue.arr _ => true
  | JSValue.obj _ => true

/-- JS `typeof`. -/
def JSValue.typeof : JSValue → String
  | JSValue.null => "object"
  | JSValue.undef => "undefined"
  | JSValue.bool _ => "boolean"
  | JSValue.num _ => "number"
  | JSValue.str _ => "string"
  | JSValue.arr _ => "object"
  | JSValue.obj _ => "object"

/-- Property access `v[k]`: `none` models a thrown `TypeError` (access on
`null`/`undefined`); a missing property reads as `undefined`. -/
def JSValue.getField : JSValue → String → Option JSValue
  | JSValue.null, _ => none
  | JSValue.undef, _ => none
  | JSValue.obj fs, k =>
    some (match fs.find? (fun p => p.1 == k) with
      | some p => p.2
      | none => JSValue.undef)
  | _, _ => some JSValue.undef

/-- Total property access used where access cannot throw: like `getField`,
with `undefined` for `null`/`undefined` receivers. -/
def JSValue.fieldOf (v : JSValue) (k : String) : JSValue :=
  match v.getField k with
  | some u => u
  | none => JSValue.undef

/-- `Array.isArray`. -/
def JSValue.isArray : JSValue → Bool
  | JSValue.arr _ => true
  | _ => false

/-- The values visited by `for (const k in v) ... v[k]`: the own property
values of an object, the elements of an array, nothing otherwise. -/
def JSValue.forInValues : JSValue → List JSValue
  | JSValue.obj fs => fs.map (fun p => p.2)
  | JSValue.arr xs => xs
  | _ => []

/-- Number of keys, `Object.keys(v).length`. -/
def JSValue.countKeys : JSValue → Nat
  | JSValue.obj fs => fs.length
  | JSValue.arr xs => xs.length
  | _ => 0

/-! ### validateBackupFile -/

/-- The per-ledger checks inside the `for...in` loop of
`validateBackupFile`: `!ledger.id || !ledger.name ||
typeof ledger.balance !== 'number'` rejects, then a truthy non-array
`ledger.transactions` rejects.  `none` models a thrown access error. -/
def validateLedgerEntry (ledger : JSValue) : Option Bool := do
  let i ← ledger.getField "id"
  let nm ← ledger.getField "name"
  let bal ← ledger.getField "balance"
  if !i.truthy || !nm.truthy || bal.typeof != "number" then
    return false
  let txns ← ledger.getField "transactions"
  if txns.truthy && !txns.isArray then
    return false
  return true

/-- The `for (const ledgerId in data.ledgers)` loop: stops with `false` at
the first invalid ledger, propagates a thrown access error. -/
def validateLedgersLoop : List JSValue → Option Bool
  | [] => some true
  | l :: ls => do
    let b ← validateLedgerEntry l
    if b then validateLedgersLoop ls else return false

/-- Body of `validateBackupFile` before the surrounding try/catch. -/
def validateBackupBody (data : JSValue) : Option Bool := do
  let version ← data.getField "version"
  let ledgers ← data.getField "ledgers"
  if !version.truthy || !ledgers.truthy then
    return false
  if ledgers.typeof != "object" then
    return false
  validateLedgersLoop ledgers.forInValues

/-- The surrounding try/catch: a thrown error yields `false`. -/
def optFalse : Option Bool → Bool
  | some b => b
  | none => false

/-- The `validateBackupFile(data)` function of the backup utilities
(part_001 lines 183-212): the checks above wrapped in try/catch, any
thrown error giving `false`. -/
def validateBackupFile (data : JSValue) : Bool :=
  optFalse (validateBackupBody data)

/-- Claim C6 reads the validation conditions with field *presence*: the
spec sentence requires `version` and `ledgers` fields present, `ledgers`
of object type, and every ledger to have `id`, `name`, a numeric
`balance`, and an array `transactions` whenever that field is present. -/
def hasField (v : JSValue) (k : String) : Bool :=
  match v with
  | JSValue.obj fs => fs.any (fun p => p.1 == k)
  | _ => false

/-- The validity condition exactly as claim C6 states it (presence-based). -/
def validBackupSpec (data : JSValue) : Bool :=
  hasField data "version" && hasField data "ledgers" &&
  (data.fieldOf "ledgers").typeof == "object" &&
  (data.fieldOf "ledgers").forInValues.all (fun ledger =>
    hasField ledger "id" && hasField ledger "name" &&
    (ledger.fieldOf "balance").typeof == "number" &&
    (!(hasField ledger "transactions") || (ledger.fieldOf "transactions").isArray))

/-- The per-ledger condition with JS truthiness instead of mere presence. -/
def validLedgerAmended (ledger : JSValue) : Bool :=
  (ledger.fieldOf "id").truthy && (ledger.fieldOf "name").truthy &&
  (ledger.fieldOf "balance").typeof == "number" &&
  (!(ledger.fieldOf "transactions").truthy || (ledger.fieldOf "transactions").isArray)

/-- The amended validity condition: as claim C6, but every *presence*
requirement strengthened to *present with a truthy value*, matching the
JS falsiness checks of the source. -/
def validBackupAmended (data : JSValue) : Bool :=
  (data.fieldOf "version").truthy && (data.fieldOf "ledgers").truthy &&
  (data.fieldOf "ledgers").typeof == "object" &&
  (data.fieldOf "ledgers").forInValues.all validLedgerAmended

/-! ### Local storage, export and import -/

/-- The local durable key-value storage.  Values stand for the JSON-parsed
content of the stored blobs (serialisation round-trips are the identity on
the values involved here). -/
def Store : Type := List (String × JSValue)

/-- `AsyncStorage.getItem`. -/
def getItem (store : Store) (k : String) : Option JSValue :=
  lookupKey store k

/-- `AsyncStorage.setItem`. -/
def setItem (store : Store) (k : String) (v : JSValue) : Store :=
  setKey store k v

/-- The `getLedgersKey()` helper of `storage.js` (lines 7-10):
`ledgers_<uid>` for an authenticated user, `ledgers_guest` otherwise. -/
def getLedgersKey (user : Option String) : String :=
  match user with
  | some uid => "ledgers_" ++ uid
  | none => "ledgers_guest"

/-- The `getAllLedgers()` function of `storage.js` (lines 31-46): read the
per-user key and parse it; a missing or corrupt blob gives `{}`. -/
def getAllLedgersJS (user : Option String) (store : Store) : JSValue :=
  match getItem store (getLedgersKey user) with
  | some v => v
  | none => JSValue.obj []

/-- The backup object built by `exportDataToBackup` (part_001 lines
17-86): `{ version: '1.0', exportDate, ledgers, expenses, categories }`
with the three collections read from the per-user storage keys. -/
def exportDataToBackup (user : Option String) (store : Store)
    (exportDate : String) : JSValue :=
  let uidPart := match user with
    | some uid => uid
    | none => "guest"
  let expenses := match getItem store ("expenses_" ++ uidPart) with
    | some v => v
    | none => JSValue.arr []
  let categories := match getItem store ("categories_" ++ uidPart) with
    | some v => v
    | none => JSValue.arr []
  JSValue.obj [("version", JSValue.str "1.0"), ("exportDate", JSValue.str exportDate),
    ("ledgers", getAllLedgersJS user store), ("expenses", expenses),
    ("categories", categories)]

/-- Result object of `importDataFromBackup`. -/
structure ImportResult where
  success : Bool
  ledgersCount : Nat
  error : Option String
deriving DecidableEq, Repr

/-- The `importDataFromBackup` function (part_001 lines 93-176) applied to
already-parsed backup data: reject invalid data without touching storage,
otherwise write the `ledgers` member to the constant key `'ledgers'`
(`LEDGERS_KEY`) and report the number of imported ledgers. -/
def importDataFromBackup (data : JSValue) (store : Store) : ImportResult × Store :=
  if validateBackupFile data then
    let ledgers := data.fieldOf "ledgers"
    ({ success := true, ledgersCount := ledgers.countKeys, error := none },
      setItem store "ledgers" ledgers)
  else
    ({ success := false, ledgersCount := 0, error := some "Invalid backup file format" },
      store)

/-! ### Concrete fixtures used by the example and counterexample theorems -/

/-- An empty customer ledger. -/
def ledger0 : Ledger :=
  { id := "l1", name := "A", phone := "", address := "", balance := 0, transactions := [] }

/-- Credit of 100 at date 1. -/
def txA : Txn :=
  { id := "t1", type := TxnType.credit, amount := 100, date := 1, balanceAfter := 0 }

/-- Credit of 50 at date 2. -/
def txB : Txn :=
  { id := "t2", type := TxnType.credit, amount := 50, date := 2, balanceAfter := 0 }

/-- Debit of 30 at date 2. -/
def txC : Txn :=
  { id := "t2", type := TxnType.debit, amount := 30, date := 2, balanceAfter := 0 }

/-- Add two credits, then delete the second. -/
def opsC1 : List LedgerOp :=
  [LedgerOp.add txA, LedgerOp.add txB, LedgerOp.delete "t2"]

/-- Add a credit and a debit, then delete the credit. -/
def opsC2 : List LedgerOp :=
  [LedgerOp.add txA, LedgerOp.add txC, LedgerOp.delete "t1"]

/-! ### Claims -/

/-- Claim C1.  The claimed invariant — after any sequence of
add/edit/delete operations, `balance` equals the signed sum of the
remaining transactions (credit positive, debit negative) — is broken by
the delete path: starting from an empty ledger, adding credits of 100 and
50 and then deleting the second leaves a single credit of 100, yet the
recomputation in `deleteTransaction` yields `balance = -100` while the
signed sum of the remaining transactions is `+100`. -/
theorem C1_delete_breaks_balance_invariant :
    (applyOps ledger0 opsC1).balance = -100 ∧
    signedSum (applyOps ledger0 opsC1).transactions = 100 := by
  decide

/-- Claim C2, counterexample.  After the operation sequence
add credit 100 / add debit 30 / delete the credit, the remaining
transaction still carries `balanceAfter = 70`, while the cumulative signed
sum through index 0 is `-30`: the delete path does not recompute
`balanceAfter`. -/
theorem C2_counterexample :
    ((applyOps ledger0 opsC2).transactions.map (fun t => t.balanceAfter))
      ≠ cumulative (applyOps ledger0 opsC2).transactions := by
  decide

/-- Claim C2, amended.  After every insert or edit of a transaction (the
`handleConfirm` recomputation), the stored transaction list is sorted
ascending by date and the `balanceAfter` of the transaction at each index
`i` equals the cumulative signed sum (credit positive, debit negative) of
the amounts through index `i`.  The delete path leaves `balanceAfter`
untouched. -/
theorem balanceAfter_runningSum (ts : List Txn) (i : Nat)
    (h : i < (assignBalances 0 (sortByDate ts)).length) :
    ((assignBalances 0 (sortByDate ts)).get ⟨i, h⟩).balanceAfter
      = signedSum ((assignBalances 0 (sortByDate ts)).take (i + 1)) := by
  have hlen : i < (sortByDate ts).length := by
    simpa [assignBalances_length] using h
  rw [assignBalances_get 0 _ i hlen h, assignBalances_take, signedSum_assignBalances,
    foldl_stepBalance]
  omega

theorem C2_amended_insert_edit_invariant (ledger : Ledger) (editId : Option String)
    (txn : Txn) (i : Nat)
    (h : i < (handleSaveRecompute ledger editId txn).transactions.length) :
    sortedByDate (handleSaveRecompute ledger editId txn).transactions = true ∧
    ((handleSaveRecompute ledger editId txn).transactions.get ⟨i, h⟩).balanceAfter
      = signedSum ((handleSaveRecompute ledger editId txn).transactions.take (i + 1)) := by
  constructor
  · show chainLe ((assignBalances 0
      (sortByDate (updatedTxns ledger editId txn))).map Txn.date) = true
    rw [assignBalances_map_date]
    exact sortByDate_sorted _
  · exact balanceAfter_runningSum (updatedTxns ledger editId txn) i h

/-- Witness for the amended claim C2 at a concrete input. -/
theorem C2_amended_witness :
    0 < (handleSaveRecompute ledger0 none txA).transactions.length ∧
    (sortedByDate (handleSaveRecompute ledger0 none txA).transactions = true ∧
     ((handleSaveRecompute ledger0 none txA).transactions.get
        ⟨0, by decide⟩).balanceAfter
       = signedSum ((handleSaveRecompute ledger0 none txA).transactions.take 1)) :=
  ⟨by decide, C2_amended_insert_edit_invariant ledger0 none txA 0 (by decide)⟩

/-- Claim C4.  The add/edit save path recomputes balances by sorting the
transactions ascending by date, walking them with a running total (credit
adds, debit subtracts), assigning each `balanceAfter`, and storing the
final total as `balance`; consequently the stored `balance` equals the
signed sum of the stored transactions, the stored list is sorted by date,
and the ledger built from [credit 100, debit 30] has balance 70 with
`balanceAfter` sequence [100, 70]. -/
theorem C4_recompute_algorithm :
    (∀ (ledger : Ledger) (editId : Option String) (txn : Txn),
        (handleSaveRecompute ledger editId txn).balance
          = signedSum (handleSaveRecompute ledger editId txn).transactions
        ∧ sortedByDate (handleSaveRecompute ledger editId txn).transactions = true)
    ∧ (handleConfirm (handleConfirm ledger0 none txA) none txC).balance = 70
    ∧ ((handleConfirm (handleConfirm ledger0 none txA) none txC).transactions.map
        (fun t => t.balanceAfter)) = [100, 70]
    ∧ ((handleConfirm (handleConfirm ledger0 none txA) none txC).transactions.map
        (fun t => t.amount)) = [100, 30] := by
  refine ⟨?_, by decide, by decide, by decide⟩
  intro ledger editId txn
  constructor
  · show (sortByDate (updatedTxns ledger editId txn)).foldl stepBalance 0
      = signedSum (assignBalances 0 (sortByDate (updatedTxns ledger editId txn)))
    rw [foldl_stepBalance, signedSum_assignBalances]
    omega
  · show chainLe ((assignBalances 0
      (sortByDate (updatedTxns ledger editId txn))).map Txn.date) = true
    rw [assignBalances_map_date]
    exact sortByDate_sorted _

theorem foldl_reversed (ts : List Txn) (r : Int) :
    ts.foldl (fun acc t => match t.type with
      | TxnType.credit => acc - t.amount
      | TxnType.debit => acc + t.amount) r = r - signedSum ts := by
  induction ts generalizing r with
  | nil => simp [signedSum]
  | cons t ts ih =>
    simp only [List.foldl_cons, ih, signedSum, List.map_cons, List.sum_cons]
    cases h : t.type <;> simp only [signedAmt, h] <;> omega

/-- A ledger in the state produced by adding credit 100 and debit 30. -/
def ledgerC5 : Ledger :=
  { id := "l1", name := "A", phone := "", address := "", balance := 70,
    transactions :=
      [{ id := "t1", type := TxnType.credit, amount := 100, date := 1, balanceAfter := 100 },
       { id := "t2", type := TxnType.debit, amount := 30, date := 2, balanceAfter := 70 }] }

/-- Claim C5.  `deleteTransaction(ledgerId, transactionId)` removes the
matching transaction, recomputes `balance` as the *negated* signed sum of
the remaining transactions (credit subtracts, debit adds in this path),
rewrites the collection, and triggers a full-collection resync — not a
single-document update — exactly when a user is authenticated and
auto-backup is enabled. -/
theorem C5_deleteTransaction_behaviour (user : Option String) (autoBackup : Bool)
    (m : AllLedgers) (lid tid : String) (ledger : Ledger)
    (h : lookupKey m lid = some ledger) :
    deleteTransaction user autoBackup m lid tid =
      (true,
       setKey m lid { ledger with
         balance := -signedSum (ledger.transactions.filter (fun t => t.id ≠ tid)),
         transactions := ledger.transactions.filter (fun t => t.id ≠ tid) },
       if user.isSome && autoBackup then SyncAction.fullResync else SyncAction.noSync) := by
  simp only [deleteTransaction, h, deleteTransactionLedger]
  rw [foldl_reversed, zero_sub]

/-- Witness for claim C5 at a concrete input: with a user and auto-backup
on, deleting the credit of 100 leaves the debit of 30 and a balance of
`+30` (the inverted sign convention), with a full resync triggered. -/
theorem C5_witness :
    deleteTransaction (some "u") true [("l1", ledgerC5)] "l1" "t1"
      = (true,
         [("l1", { id := "l1", name := "A", phone := "", address := "", balance := 30,
                   transactions := [{ id := "t2", type := TxnType.debit, amount := 30,
                                      date := 2, balanceAfter := 70 }] })],
         SyncAction.fullResync) := by
  have h := C5_deleteTransaction_behaviour (some "u") true [("l1", ledgerC5)] "l1" "t1"
    ledgerC5 (by decide)
  rw [h]
  decide

/-- Claim C10.  When no ledger with the given id exists in the stored
collection, `deleteTransaction` returns `false`, leaves the collection
unchanged, and triggers no sync. -/
theorem C10_delete_missing_ledger (user : Option String) (autoBackup : Bool)
    (m : AllLedgers) (lid tid : String) (h : lookupKey m lid = none) :
    deleteTransaction user autoBackup m lid tid = (false, m, SyncAction.noSync) := by
  simp [deleteTransaction, h]

/-- Witness for claim C10 on the empty collection. -/
theorem C10_witness :
    deleteTransaction (some "u") true ([] : AllLedgers) "l1" "t1"
      = (false, [], SyncAction.noSync) :=
  C10_delete_missing_ledger (some "u") true [] "l1" "t1" (by decide)

theorem lookupKey_eraseKey_self {α : Type} (m : List (String × α)) (k : String) :
    lookupKey (eraseKey m k) k = none := by
  induction m with
  | nil => rfl
  | cons p rest ih =>
    by_cases hp : p.1 = k
    · simpa [eraseKey, hp] using ih
    · simpa [eraseKey, lookupKey, List.filter_cons, List.find?_cons, hp] using ih

theorem lookupKey_map_preserving {α β : Type} (m : List (String × α))
    (f : String × α → String × β) (hf : ∀ p, (f p).1 = p.1) (k : String)
    (h : lookupKey m k = none) : lookupKey (m.map f) k = none := by
  induction m with
  | nil => rfl
  | cons p rest ih =>
    by_cases hp : p.1 = k
    · exfalso
      simp [lookupKey, List.find?_cons, hp] at h
    · have hrest : lookupKey rest k = none := by
        simpa [lookupKey, List.find?_cons, hp] using h
      simpa [lookupKey, List.find?_cons, hf p, hp] using ih hrest

/-- Concrete remote ledger document for claim C9. -/
def docL1 : LedgerDoc := { name := "A", balance := 100, phone := "", address := "" }

/-- Remote state holding the `l1` document. -/
def remote9 : RemoteState := { ledgerDocs := [("l1", docL1)], txnSub := [] }

/-- Local collection holding ledger `l1`. -/
def local9 : AllLedgers :=
  [("l1", { id := "l1", name := "A", phone := "", address := "", balance := 100,
            transactions := [] })]

/-- Claim C9, counterexample.  With an authenticated user whose auto-backup
is *disabled*, `deleteLedger` succeeds and removes the ledger locally, but
the remote document is not deleted, so a subsequent `fetchFromFirebase`
restores the ledger to the local collection. -/
theorem C9_counterexample :
    (deleteLedger (some "u") false local9 remote9 "l1").1 = true ∧
    lookupKey (deleteLedger (some "u") false local9 remote9 "l1").2.1 "l1" = none ∧
    (lookupKey (fetchFromFirebase (some "u")
        (deleteLedger (some "u") false local9 remote9 "l1").2.2
        (deleteLedger (some "u") false local9 remote9 "l1").2.1) "l1").isSome = true := by
  decide

/-- Claim C9, amended.  After `deleteLedger(id)` succeeds the local
collection no longer contains the ledger; and when the user is
authenticated with auto-backup enabled (so that the remote document
deletion is issued, and modelling that deletion as succeeding), a
subsequent `fetchFromFirebase` does not restore the ledger. -/
theorem C9_amended_delete_then_fetch (u : String) (local_ : AllLedgers)
    (remote : RemoteState) (lid : String) :
    (deleteLedger (some u) true local_ remote lid).1 = true ∧
    lookupKey (deleteLedger (some u) true local_ remote lid).2.1 lid = none ∧
    lookupKey (fetchFromFirebase (some u)
      (deleteLedger (some u) true local_ remote lid).2.2
      (deleteLedger (some u) true local_ remote lid).2.1) lid = none := by
  refine ⟨rfl, lookupKey_eraseKey_self local_ lid, ?_⟩
  show lookupKey (((deleteLedger (some u) true local_ remote lid).2.2).ledgerDocs.map
    (fetchLedgerEntry (deleteLedger (some u) true local_ remote lid).2.2)) lid = none
  refine lookupKey_map_preserving _
    (fetchLedgerEntry (deleteLedger (some u) true local_ remote lid).2.2)
    (fun p => rfl) lid ?_
  show lookupKey (eraseKey remote.ledgerDocs lid) lid = none
  exact lookupKey_eraseKey_self remote.ledgerDocs lid

theorem lookupKey_setKey_ne {α : Type} (m : List (String × α)) (k q : String) (v : α)
    (h : k ≠ q) : lookupKey (setKey m k v) q = lookupKey m q := by
  induction m with
  | nil => simp [setKey, lookupKey, List.find?_cons, h]
  | cons p rest ih =>
    by_cases hp : p.1 = k
    · simp [setKey, lookupKey, List.find?_cons, hp, h]
    · by_cases hq : p.1 = q
      · simp [setKey, lookupKey, List.find?_cons, hp, hq, h.symm]
      · simpa [setKey, lookupKey, List.find?_cons, hp, hq] using ih

theorem getLedgersKey_ne_ledgers (user : Option String) :
    getLedgersKey user ≠ "ledgers" := by
  cases user with
  | none => decide
  | some uid =>
    show "ledgers_" ++ uid ≠ "ledgers"
    intro hEq
    have hlen := congrArg String.length hEq
    rw [String.length_append] at hlen
    have h8 : ("ledgers_" : String).length = 8 := by decide
    have h7 : ("ledgers" : String).length = 7 := by decide
    omega

/-- Claim C3.  For every local state, importing the backup file produced by
`exportDataToBackup` leaves the ledger collection observed through
`getAllLedgers` equal to the original.  (The import writes the constant
key `'ledgers'`, which `getAllLedgers` — reading `ledgers_<uid>` or
`ledgers_guest` — never consults, so the observed collection is exactly
the untouched original.) -/
theorem C3_export_import_roundtrip (user : Option String) (store : Store) (d : String) :
    getAllLedgersJS user ((importDataFromBackup (exportDataToBackup user store d) store).2)
      = getAllLedgersJS user store := by
  by_cases hv : validateBackupFile (exportDataToBackup user store d)
  · simp only [importDataFromBackup, if_pos hv]
    show getAllLedgersJS user (setItem store "ledgers"
      ((exportDataToBackup user store d).fieldOf "ledgers")) = getAllLedgersJS user store
    simp only [getAllLedgersJS, getItem, setItem]
    rw [lookupKey_setKey_ne]
    exact fun hEq => getLedgersKey_ne_ledgers user hEq.symm
  · simp only [importDataFromBackup, if_neg hv]

theorem getField_eq_fieldOf (v : JSValue) (k : String) (h1 : v ≠ JSValue.null)
    (h2 : v ≠ JSValue.undef) : v.getField k = some (v.fieldOf k) := by
  cases v with
  | null => exact absurd rfl h1
  | undef => exact absurd rfl h2
  | bool b => rfl
  | num n => rfl
  | str s => rfl
  | arr xs => rfl
  | obj fs => rfl

theorem validateLedgerEntry_eq (ledger : JSValue) (h1 : ledger ≠ JSValue.null)
    (h2 : ledger ≠ JSValue.undef) :
    validateLedgerEntry ledger = some (validLedgerAmended ledger) := by
  have hId := getField_eq_fieldOf ledger "id" h1 h2
  have hNm := getField_eq_fieldOf ledger "name" h1 h2
  have hBal := getField_eq_fieldOf ledger "balance" h1 h2
  have hTx := getField_eq_fieldOf ledger "transactions" h1 h2
  simp only [validateLedgerEntry, hId, hNm, hBal, hTx, Option.some_bind]
  cases hA : (ledger.fieldOf "id").truthy <;>
    cases hB : (ledger.fieldOf "name").truthy <;>
      cases hC : (ledger.fieldOf "balance").typeof == "number" <;>
        cases hD : (ledger.fieldOf "transactions").truthy <;>
          cases hE : (ledger.fieldOf "transactions").isArray <;>
            simp [validLedgerAmended, hA, hB, hC, hD, hE, bne]
  all_goals first
    | exact eq_of_beq hC
    | exact fun hh => by rw [hh] at hC; simp at hC

theorem validateLedgersLoop_eq (ls : List JSValue) :
    optFalse (validateLedgersLoop ls) = ls.all validLedgerAmended := by
  induction ls with
  | nil => rfl
  | cons l ls ih =>
    by_cases h1 : l = JSValue.null
    · subst h1
      simp [validateLedgersLoop, validateLedgerEntry, JSValue.getField, optFalse,
        validLedgerAmended, JSValue.fieldOf, JSValue.truthy]
    · by_cases h2 : l = JSValue.undef
      · subst h2
        simp [validateLedgersLoop, validateLedgerEntry, JSValue.getField, optFalse,
          validLedgerAmended, JSValue.fieldOf, JSValue.truthy]
      · have hE := validateLedgerEntry_eq l h1 h2
        cases hb : validLedgerAmended l
        · have hstep : validateLedgersLoop (l :: ls) = some false := by
            simp [validateLedgersLoop, hE, hb]
          show optFalse (validateLedgersLoop (l :: ls)) = (l :: ls).all validLedgerAmended
          rw [hstep]
          simp [optFalse, hb]
        · have hstep : validateLedgersLoop (l :: ls) = validateLedgersLoop ls := by
            simp [validateLedgersLoop, hE, hb]
          show optFalse (validateLedgersLoop (l :: ls)) = (l :: ls).all validLedgerAmended
          rw [hstep, ih]
          simp [hb]

/-- A backup object whose `version` and `ledgers` fields are both present
(`version: 0`, `ledgers: {}`). -/
def badBackup : JSValue :=
  JSValue.obj [("version", JSValue.num 0), ("ledgers", JSValue.obj [])]

/-- Claim C6, counterexample.  `badBackup` satisfies every presence-based
condition of the claim (it has `version` and `ledgers` fields, `ledgers`
is an object, and there are no ledgers to check), yet `validateBackupFile`
returns `false`, because `version: 0` is falsy and the source tests
`!data.version`. -/
theorem C6_counterexample :
    validBackupSpec badBackup = true ∧ validateBackupFile badBackup = false := by
  decide

/-- Claim C6, amended.  `validateBackupFile(data)` returns `true` exactly
when `data` has *truthy* `version` and `ledgers` fields, `ledgers` is of
object type, and every ledger in `ledgers` has truthy `id` and `name`
fields, a `balance` of number type, and — whenever its `transactions`
field is truthy — an array `transactions`. -/
theorem C6_amended_validateBackupFile (data : JSValue) :
    validateBackupFile data = validBackupAmended data := by
  by_cases h1 : data = JSValue.null
  · subst h1; rfl
  · by_cases h2 : data = JSValue.undef
    · subst h2; rfl
    · have hv := getField_eq_fieldOf data "version" h1 h2
      have hl := getField_eq_fieldOf data "ledgers" h1 h2
      simp only [validateBackupFile, validateBackupBody, hv, hl, Option.some_bind]
      cases hV : (data.fieldOf "version").truthy
      · simp [optFalse, validBackupAmended, hV]
      · cases hL : (data.fieldOf "ledgers").truthy
        · simp [optFalse, validBackupAmended, hV, hL]
        · by_cases hT : (data.fieldOf "ledgers").typeof = "object"
          · simp [validBackupAmended, hV, hL, hT, validateLedgersLoop_eq]
          · cases hxx : (data.fieldOf "ledgers").typeof == "object"
            · simp [optFalse, validBackupAmended, hV, hL, hT, hxx]
            · exact absurd (eq_of_beq hxx) hT

/-- Claim C7.  When the backup data fails validation, the import returns
the failure result and leaves local storage untouched — no partial import
occurs. -/
theorem C7_import_rejects_invalid (data : JSValue) (store : Store)
    (h : validateBackupFile data = false) :
    importDataFromBackup data store
      = ({ success := false, ledgersCount := 0,
           error := some "Invalid backup file format" }, store) := by
  simp [importDataFromBackup, h]

/-- A backup file missing the `ledgers` key. -/
def missingLedgersBackup : JSValue :=
  JSValue.obj [("version", JSValue.str "1.0"), ("expenses", JSValue.arr []),
    ("categories", JSValue.arr [])]

/-- Witness for claim C7: on a backup missing the `ledgers` key,
`validateBackupFile` returns `false` and the import fails without writing
to storage. -/
theorem C7_witness :
    validateBackupFile missingLedgersBackup = false ∧
    importDataFromBackup missingLedgersBackup []
      = ({ success := false, ledgersCount := 0,
           error := some "Invalid backup file format" }, ([] : Store)) :=
  ⟨by decide, C7_import_rejects_invalid missingLedgersBackup [] (by decide)⟩

/-- Failure oracle under which only the ledger document write for `l1`
fails. -/
def failsL1 : WriteDoc → Bool := fun w => w == WriteDoc.ledgerDoc "l1"

/-- Failure oracle under which only the expense document write for `e1`
fails. -/
def failsE1 : WriteDoc → Bool := fun w => w == WriteDoc.expenseDoc "e1"

/-- Backup settings with auto-backup on and no previous sync. -/
def settings8 : BackupSettings :=
  { autoBackup := true, lastSync := none, syncStatus := "idle" }

/-- A concrete expense. -/
def expense8 : Expense :=
  { id := "e1", title := "tea", amount := 10, category := "Food", date := 5 }

/-- Claim C8, counterexample.  A failing write inside the ledger loop (the
ledger document write for `l1` fails) does *not* make `syncAllToFirebase`
return `false`: the failure is swallowed inside `syncLedgerToFirebase`, the
sync runs to completion, returns `true`, and updates `lastSync`. -/
theorem C8_counterexample :
    failsL1 (WriteDoc.ledgerDoc "l1") = true ∧
    syncAllToFirebase (some "u") failsL1 [("l1", ledgerC5)] [] settings8 "2024-06-01"
      = (true, [WriteDoc.categoriesDoc],
         { autoBackup := true, lastSync := some "2024-06-01", syncStatus := "idle" }) := by
  decide

/-- Claim C8, amended.  `syncAllToFirebase` returns `false` (with no
writes and unchanged settings) when no identity is authenticated; whenever
it returns `true` it has set `lastSync` to the current timestamp, and
whenever it returns `false` the settings — in particular `lastSync` — are
unchanged; and for an authenticated user the writes already issued are
reported as-is (ledger-loop writes, then the expense writes up to the
first failing one, then the categories document on success): nothing is
rolled back.  Failures of ledger or transaction writes are swallowed
inside the per-ledger sync and only expense or categories write failures
produce a `false` return. -/
theorem C8_amended_sync_behaviour (user : Option String) (fails : WriteDoc → Bool)
    (ledgers : AllLedgers) (expenses : List Expense) (settings : BackupSettings)
    (now : String) :
    (user = none →
      syncAllToFirebase user fails ledgers expenses settings now = (false, [], settings)) ∧
    ((syncAllToFirebase user fails ledgers expenses settings now).1 = true →
      (syncAllToFirebase user fails ledgers expenses settings now).2.2
        = { settings with lastSync := some now }) ∧
    ((syncAllToFirebase user fails ledgers expenses settings now).1 = false →
      (syncAllToFirebase user fails ledgers expenses settings now).2.2 = settings) ∧
    (∀ u, user = some u →
      (syncAllToFirebase user fails ledgers expenses settings now).2.1
        = ledgerLoopWrites user fails ledgers
          ++ (issueSeq fails (expenses.map (fun e => WriteDoc.expenseDoc e.id))).1
          ++ (if (syncAllToFirebase user fails ledgers expenses settings now).1
              then [WriteDoc.categoriesDoc] else [])) := by
  cases user with
  | none =>
    refine ⟨fun _ => rfl, ?_, ?_, ?_⟩
    · intro h
      simp [syncAllToFirebase] at h
    · intro _
      rfl
    · intro u hu
      exact absurd hu (by simp)
  | some u0 =>
    cases hexp : (issueSeq fails (expenses.map (fun e => WriteDoc.expenseDoc e.id))).2
    · refine ⟨by simp, ?_, ?_, ?_⟩
      · intro h
        simp [syncAllToFirebase, hexp] at h
      · intro _
        simp [syncAllToFirebase, hexp]
      · intro u hu
        simp [syncAllToFirebase, hexp]
    · cases hcat : fails WriteDoc.categoriesDoc
      · refine ⟨by simp, ?_, ?_, ?_⟩
        · intro _
          simp [syncAllToFirebase, hexp, hcat]
        · intro h
          simp [syncAllToFirebase, hexp, hcat] at h
        · intro u hu
          simp [syncAllToFirebase, hexp, hcat]
      · refine ⟨by simp, ?_, ?_, ?_⟩
        · intro h
          simp [syncAllToFirebase, hexp, hcat] at h
        · intro _
          simp [syncAllToFirebase, hexp, hcat]
        · intro u hu
          simp [syncAllToFirebase, hexp, hcat]

/-- Witness for the amended claim C8, covering the unauthenticated case,
a completed sync (`lastSync` updated), a sync failed by an expense write
(`lastSync` unchanged), and the issued-writes report. -/
theorem C8_amended_witness :
    syncAllToFirebase none failsL1 [] [] settings8 "T" = (false, [], settings8) ∧
    (syncAllToFirebase (some "u") failsL1 [] [] settings8 "T").2.2
      = { settings8 with lastSync := some "T" } ∧
    (syncAllToFirebase (some "u") failsE1 [] [expense8] settings8 "T").2.2 = settings8 ∧
    (syncAllToFirebase (some "u") failsE1 [] [expense8] settings8 "T").2.1
      = ledgerLoopWrites (some "u") failsE1 []
        ++ (issueSeq failsE1 ([expense8].map (fun e => WriteDoc.expenseDoc e.id))).1
        ++ (if (syncAllToFirebase (some "u") failsE1 [] [expense8] settings8 "T").1
            then [WriteDoc.categoriesDoc] else []) :=
  ⟨(C8_amended_sync_behaviour none failsL1 [] [] settings8 "T").1 rfl,
   (C8_amended_sync_behaviour (some "u") failsL1 [] [] settings8 "T").2.1 (by decide),
   (C8_amended_sync_behaviour (some "u") failsE1 [] [expense8] settings8 "T").2.2.1
     (by decide),
   (C8_amended_sync_behaviour (some "u") failsE1 [] [expense8] settings8 "T").2.2.2
     "u" rfl⟩

end MazKhatWeb
